import Mathlib

/-!
Verification of the metered pipe (`metered_pipe.py`).

The writer `CW` buffers `(obj, sent_at)` pairs and flushes them as one
batch of envelopes `(obj, sequence, s0, s1)` into a shared bounded FIFO
queue, retrying a bounded number of times when the queue is full.  The
reader `CR` blocks for a batch, asserts each envelope's sequence number
equals the current metering-log length, and appends payloads and
four-timestamp records.  `time.time()` is modelled by a clock function
`clock : Nat -> Nat` read at an ever-advancing tick counter held in the
system state; each call to `time.time()` reads the clock at the current
tick and advances the tick by one.
-/

namespace MeteredPipe

/-- `INTERVAL_ON_QUEUE_FULL` only feeds `time.sleep`; sleeps are counted
as a ghost observation, so the numeric value is irrelevant to the model. -/
def RETRY_FLUSH_ON_QUEUE_FULL : Nat := 10

/-- The reader's log is `collections.deque(maxlen=(2 ** 32))`. -/
def LOG_MAXLEN : Nat := 2 ^ 32

/-- `PIPE_BUFFER_SIZE = 2 ** 12` inside `MeteredPipe`. -/
def PIPE_BUFFER_SIZE : Nat := 2 ^ 12

/-- One element of a flushed batch: `(obj, n, s0, time.time())` in
`CW.flush`. -/
structure Envelope (α : Type) where
  obj : α
  n : Nat
  s0 : Nat
  s1 : Nat
deriving DecidableEq, Repr

/-- One metering record `{'s0': s0, 's1': s1, 't0': t0, 't1': t1}`
appended by `CR.fetch`. -/
structure MRecord where
  s0 : Nat
  s1 : Nat
  t0 : Nat
  t1 : Nat
deriving DecidableEq, Repr

/-- The writer-owned fields of `CW` (the shared queue lives in `Sys`). -/
structure CWState (α : Type) where
  n : Nat
  buffer : List (α × Nat)
  last_successful_put : Nat
deriving DecidableEq, Repr

/-- The reader-owned fields of `CR` (the shared queue lives in `Sys`). -/
structure CRState (α : Type) where
  buffer : List α
  log : List MRecord
deriving DecidableEq, Repr

/-- Append to the log deque, evicting from the left at `maxlen`. -/
def dequeAppend (l : List MRecord) (x : MRecord) : List MRecord :=
  if l.length < LOG_MAXLEN then l ++ [x] else l.tail ++ [x]

/-- The whole system: the shared queue (a FIFO of batches, front =
oldest), both endpoint states, the clock tick, and ghost observation
fields (`received`, `drained`, `sent`, `sleeps`, `fetches`, `observed`)
recording what the run did. -/
structure Sys (α : Type) where
  tick : Nat
  q : List (List (Envelope α))
  w : CWState α
  r : CRState α
  received : List α
  drained : List MRecord
  sent : List α
  sleeps : Nat
  fetches : Nat
  observed : List Nat
deriving DecidableEq, Repr

/-- Fresh endpoints, as built by `CW.__init__` / `CR.__init__` over an
empty queue. -/
def init {α : Type} : Sys α :=
  { tick := 0, q := [], w := ⟨0, [], 0⟩, r := ⟨[], []⟩,
    received := [], drained := [], sent := [], sleeps := 0,
    fetches := 0, observed := [] }

/-- `queue.Full` condition: Python's `Queue` is full iff `maxsize > 0`
and the queue holds at least `maxsize` items (each `put` stores one
batch object). -/
def qFull {α : Type} (cap : Nat) (q : List (List (Envelope α))) : Prop :=
  0 < cap ∧ cap ≤ q.length

instance {α : Type} (cap : Nat) (q : List (List (Envelope α))) :
    Decidable (qFull cap q) := by
  unfold qFull; infer_instance

/-- The batch comprehension in `CW.flush`:
`[(obj, n, s0, time.time()) for (n, (obj, s0)) in enumerate(buffer, start=n0)]`;
one clock tick is consumed per element. -/
def stampBatch {α : Type} (clock : Nat → Nat) :
    Nat → Nat → List (α × Nat) → List (Envelope α)
  | _, _, [] => []
  | tick, n0, (a, s0) :: rest =>
      ⟨a, n0, s0, clock tick⟩ :: stampBatch clock (tick + 1) (n0 + 1) rest

/-- `CW.flush`: up to `RETRY_FLUSH_ON_QUEUE_FULL` non-blocking put
attempts.  Single-threaded, the queue cannot drain between attempts, so
the put succeeds on the first attempt iff the queue is not full;
otherwise every attempt builds the batch (consuming one tick per
element) and sleeps.  On success the batch is enqueued, the sequence
counter advances, the buffer is cleared and `last_successful_put` is
stamped. -/
def flush {α : Type} (clock : Nat → Nat) (cap : Nat) (s : Sys α) : Sys α :=
  if qFull cap s.q then
    { s with tick := s.tick + RETRY_FLUSH_ON_QUEUE_FULL * s.w.buffer.length,
             sleeps := s.sleeps + RETRY_FLUSH_ON_QUEUE_FULL }
  else
    { s with q := s.q ++ [stampBatch clock s.tick s.w.n s.w.buffer],
             tick := s.tick + s.w.buffer.length + 1,
             w := { n := s.w.n + s.w.buffer.length,
                    buffer := [],
                    last_successful_put := clock (s.tick + s.w.buffer.length) } }

/-- `CW.send`: stamp `s0 = time.time()`, append to the buffer, and
flush unless within the rate-limit window
`s0 < last_successful_put + SYSTEM_SEND_MAX_FREQUENCY` (the frequency
constant is the parameter `freq`). -/
def send {α : Type} (clock : Nat → Nat) (cap freq : Nat) (a : α) (s : Sys α) :
    Sys α :=
  let s0 := clock s.tick
  let s1 : Sys α :=
    { s with tick := s.tick + 1,
             w := { s.w with buffer := s.w.buffer ++ [(a, s0)] },
             sent := s.sent ++ [a] }
  if s0 < s.w.last_successful_put + freq then s1 else flush clock cap s1

/-- Failure modes of the reader's fallible operations: `wouldBlock`
models `q.get(block=True)` blocking forever on an empty queue,
`assertionFailed` the `assert n == len(self._log)`, `indexError` the
`self.buffer[0]` on an empty buffer in `recv`. -/
inductive Err where
  | wouldBlock
  | assertionFailed
  | indexError
deriving DecidableEq, Repr

/-- The records built by the loop body of `CR.fetch` for one batch:
`t1 = time.time()` is read per message (one tick per element). -/
def mkRecords (clock : Nat → Nat) (t0 : Nat) :
    Nat → List (Envelope α) → List MRecord
  | _, [] => []
  | tick, e :: rest => ⟨e.s0, e.s1, t0, clock tick⟩ :: mkRecords clock t0 (tick + 1) rest

/-- The loop of `CR.fetch`: for each envelope append the payload, read
`t1`, assert the sequence equals the log length, and append the record. -/
def fetchLoop {α : Type} (clock : Nat → Nat) (t0 : Nat) :
    List (Envelope α) → Sys α → Except Err (Sys α)
  | [], s => .ok s
  | e :: rest, s =>
      let t1 := clock s.tick
      if e.n = s.r.log.length then
        fetchLoop clock t0 rest
          { s with tick := s.tick + 1,
                   observed := s.observed ++ [e.n],
                   r := { buffer := s.r.buffer ++ [e.obj],
                          log := dequeAppend s.r.log ⟨e.s0, e.s1, t0, t1⟩ } }
      else .error .assertionFailed

/-- `CR.fetch`: read `t0 = time.time()`, block on `q.get`, and run the
unpacking loop.  On an empty queue the dequeue blocks forever. -/
def fetch {α : Type} (clock : Nat → Nat) (s : Sys α) : Except Err (Sys α) :=
  let t0 := clock s.tick
  match s.q with
  | [] => .error .wouldBlock
  | batch :: qrest =>
      fetchLoop clock t0 batch
        { s with tick := s.tick + 1, q := qrest, fetches := s.fetches + 1 }

/-- `CR.recv`: fetch once if the delivery buffer is empty, then return
`buffer[0]` (an index error if the buffer is still empty) and drop it. -/
def recv {α : Type} (clock : Nat → Nat) (s : Sys α) : Except Err (Sys α) :=
  match (if s.r.buffer.isEmpty then fetch clock s else .ok s) with
  | .error e => .error e
  | .ok s1 =>
      match s1.r.buffer with
      | [] => .error .indexError
      | a :: rest =>
          .ok { s1 with r := { s1.r with buffer := rest },
                        received := s1.received ++ [a] }

/-- `CR.flush_log_using(f)` with the callback appending to an external
list: pops records from the left until the log is empty. -/
def flush_log_using {α : Type} (s : Sys α) : Sys α :=
  { s with r := { s.r with log := [] }, drained := s.drained ++ s.r.log }

/-- `CW.__del__`: raises iff the local buffer is non-empty. -/
def CW_del {α : Type} (w : CWState α) : Except String Unit :=
  if w.buffer.isEmpty then .ok ()
  else .error "Pipe `send` buffer is not empty. Call flush() on it."

/-- The operations a caller can perform on the pipe. -/
inductive Op (α : Type) where
  | send (a : α)
  | flush
  | fetch
  | recv
  | drain
deriving DecidableEq, Repr

/-- One caller operation. -/
def step {α : Type} (clock : Nat → Nat) (cap freq : Nat) (s : Sys α) :
    Op α → Except Err (Sys α)
  | .send a => .ok (send clock cap freq a s)
  | .flush => .ok (flush clock cap s)
  | .fetch => fetch clock s
  | .recv => recv clock s
  | .drain => .ok (flush_log_using s)

/-- Run a list of operations, stopping at the first failure. -/
def runOps {α : Type} (clock : Nat → Nat) (cap freq : Nat) :
    Sys α → List (Op α) → Except Err (Sys α)
  | s, [] => .ok s
  | s, op :: rest =>
      match step clock cap freq s op with
      | .error e => .error e
      | .ok s1 => runOps clock cap freq s1 rest

/-- The factory `MeteredPipe(duplex=True, q=None)`.  Channels are
modelled by identifiers; the first component counts how many fresh
channels the call created, so the duplex error provably happens before
any channel is created.  On success the reader and writer are returned
in source order `(CR(q), CW(q))`, both holding the same channel. -/
structure PipeResult (α : Type) where
  cr : CRState α
  r_chan : Nat
  cw : CWState α
  w_chan : Nat
deriving DecidableEq, Repr

def MeteredPipe (α : Type) (duplex : Bool) (q : Option Nat) (freshId : Nat) :
    Nat × Except String (PipeResult α) :=
  if duplex then (0, .error "NotImplementedError")
  else
    match q with
    | some qid => (0, .ok ⟨⟨[], []⟩, qid, ⟨0, [], 0⟩, qid⟩)
    | none => (1, .ok ⟨⟨[], []⟩, freshId, ⟨0, [], 0⟩, freshId⟩)

/-- Python default argument `duplex=True`. -/
def MeteredPipe_default_duplex : Bool := true

/-- Python default argument `q=None`. -/
def MeteredPipe_default_q : Option Nat := none

/-! ### Derived observations of the state -/

/-- The payloads of a batch, in order. -/
def batchPayloads {α : Type} (b : List (Envelope α)) : List α := b.map Envelope.obj

/-- The sequence numbers of a batch, in order. -/
def batchSeqs {α : Type} (b : List (Envelope α)) : List Nat := b.map Envelope.n

/-- All payloads sitting in the queue, oldest first. -/
def qPayloads {α : Type} (q : List (List (Envelope α))) : List α :=
  (q.map batchPayloads).flatten

/-- All sequence numbers sitting in the queue, oldest first. -/
def qSeqs {α : Type} (q : List (List (Envelope α))) : List Nat :=
  (q.map batchSeqs).flatten

/-- Total number of messages (not batches) in the queue. -/
def qCount {α : Type} (q : List (List (Envelope α))) : Nat :=
  (q.map List.length).sum

/-- The payloads of the writer's local buffer, in order. -/
def bufPayloads {α : Type} (buf : List (α × Nat)) : List α := buf.map Prod.fst

/-- Every payload in the system, in pipeline order: already received,
in the reader's delivery buffer, in transit in the queue, still in the
writer's buffer. -/
def allPayloads {α : Type} (s : Sys α) : List α :=
  s.received ++ s.r.buffer ++ qPayloads s.q ++ bufPayloads s.w.buffer

/-- A monotonically non-decreasing clock. -/
def Mono (clock : Nat → Nat) : Prop := ∀ i j : Nat, i ≤ j → clock i ≤ clock j

/-- The single-writer/single-reader protocol invariant over a shared
queue, for runs that do not drain the log:
the writer's counter accounts for every logged and in-flight message;
the queue carries exactly the sequence interval the reader expects next;
the log has one record per fetched message; observed sequences are an
initial segment of the naturals; every recv took its payload from a
fetched message; and payloads travel in order without loss or
duplication. -/
structure InvP {α : Type} (s : Sys α) : Prop where
  hn : s.w.n = s.r.log.length + qCount s.q
  hseq : qSeqs s.q = List.range' s.r.log.length (qCount s.q)
  hlog : s.r.log.length = s.observed.length
  hobs : s.observed = List.range s.observed.length
  hcnt : s.received.length + s.r.buffer.length = s.observed.length
  horder : allPayloads s = s.sent

/-- Every batch except possibly the last is non-empty.  The writer only
ever enqueues an empty batch from an explicit `flush()` on an empty
buffer, which is necessarily the last batch of any send phase. -/
def okQ {α : Type} (q : List (List (Envelope α))) : Prop :=
  ∀ b ∈ q.dropLast, b ≠ []

/-- `xs` handed to `CW.send` one by one. -/
def applySends {α : Type} (clock : Nat → Nat) (cap freq : Nat) :
    List α → Sys α → Sys α
  | [], s => s
  | a :: rest, s => applySends clock cap freq rest (send clock cap freq a s)

/-- Number of `send` operations in a list of operations. -/
def sendCount {α : Type} : List (Op α) → Nat
  | [] => 0
  | Op.send _ :: rest => sendCount rest + 1
  | Op.flush :: rest => sendCount rest
  | Op.fetch :: rest => sendCount rest
  | Op.recv :: rest => sendCount rest
  | Op.drain :: rest => sendCount rest

/-- No `flush_log_using` in the run. -/
def noDrain {α : Type} (ops : List (Op α)) : Prop := ∀ op ∈ ops, op ≠ Op.drain

instance {α : Type} [DecidableEq α] (ops : List (Op α)) :
    Decidable (noDrain ops) := by
  unfold noDrain; infer_instance

/-- Timestamp sanity under a monotone clock: buffered send-stamps are
no later than the current clock; every envelope satisfies
`sent_at ≤ enqueued_at`; every log or drained record satisfies
`sent_at ≤ enqueued_at` and `fetch_started_at ≤ fetch_completed_at`. -/
structure InvT {α : Type} (clock : Nat → Nat) (s : Sys α) : Prop where
  hbuf : ∀ p ∈ s.w.buffer, p.2 ≤ clock s.tick
  henv : ∀ b ∈ s.q, ∀ e ∈ b, e.s0 ≤ e.s1
  hrec : ∀ rec ∈ s.r.log, rec.s0 ≤ rec.s1 ∧ rec.t0 ≤ rec.t1
  hdr : ∀ rec ∈ s.drained, rec.s0 ≤ rec.s1 ∧ rec.t0 ≤ rec.t1

/-- Final state of the run `[send 37, flush, recv]` with `clock = id`,
`cap = 4096`, `freq = 1000`. -/
def c2wState : Sys Nat :=
  ⟨5, [], ⟨1, [], 2⟩, ⟨[], [⟨0, 1, 3, 4⟩]⟩, [37], [], [37], 0, 1, [0]⟩

/-- A reader state with one two-message batch pending, sequences `0, 1`. -/
def c4wState : Sys Nat :=
  ⟨4, [[⟨5, 0, 0, 1⟩, ⟨7, 1, 2, 3⟩]], ⟨2, [], 0⟩, ⟨[], []⟩, [], [], [5, 7], 0, 0, []⟩

/-- Final state of the run `[send 3, flush, recv, drain]` with
`clock = id`, `cap = 4096`, `freq = 1000`. -/
def c5wState : Sys Nat :=
  ⟨5, [], ⟨1, [], 2⟩, ⟨[], []⟩, [3], [⟨0, 1, 3, 4⟩], [3], 0, 1, [0]⟩

/-- A writer state with one unflushed message and one batch already in
the queue (full at capacity 1, not full at capacity 2). -/
def c3wState : Sys Nat :=
  ⟨6, [[]], ⟨0, [(5, 0)], 0⟩, ⟨[], []⟩, [], [], [5], 0, 0, []⟩

/-- A writer state whose local buffer is empty. -/
def c9wState : Sys Nat :=
  ⟨7, [], ⟨3, [], 2⟩, ⟨[], []⟩, [], [], [], 0, 0, []⟩

/-- A `CW` with one unflushed buffered message. -/
def c8wState : CWState Nat := ⟨0, [(5, 1)], 0⟩

@[simp] theorem qPayloads_nil {α : Type} : qPayloads ([] : List (List (Envelope α))) = [] := rfl

@[simp] theorem qPayloads_cons {α : Type} (b : List (Envelope α)) (q) :
    qPayloads (b :: q) = batchPayloads b ++ qPayloads q := by
  simp [qPayloads]

@[simp] theorem qPayloads_append {α : Type} (q₁ q₂ : List (List (Envelope α))) :
    qPayloads (q₁ ++ q₂) = qPayloads q₁ ++ qPayloads q₂ := by
  simp [qPayloads]

@[simp] theorem qSeqs_nil {α : Type} : qSeqs ([] : List (List (Envelope α))) = [] := rfl

@[simp] theorem qSeqs_cons {α : Type} (b : List (Envelope α)) (q) :
    qSeqs (b :: q) = batchSeqs b ++ qSeqs q := by
  simp [qSeqs]

@[simp] theorem qSeqs_append {α : Type} (q₁ q₂ : List (List (Envelope α))) :
    qSeqs (q₁ ++ q₂) = qSeqs q₁ ++ qSeqs q₂ := by
  simp [qSeqs]

@[simp] theorem qCount_nil {α : Type} : qCount ([] : List (List (Envelope α))) = 0 := rfl

@[simp] theorem qCount_cons {α : Type} (b : List (Envelope α)) (q) :
    qCount (b :: q) = b.length + qCount q := by
  simp [qCount]

@[simp] theorem qCount_append {α : Type} (q₁ q₂ : List (List (Envelope α))) :
    qCount (q₁ ++ q₂) = qCount q₁ + qCount q₂ := by
  simp [qCount]

@[simp] theorem batchPayloads_length {α : Type} (b : List (Envelope α)) :
    (batchPayloads b).length = b.length := by
  simp [batchPayloads]

@[simp] theorem batchSeqs_length {α : Type} (b : List (Envelope α)) :
    (batchSeqs b).length = b.length := by
  simp [batchSeqs]

theorem qPayloads_length {α : Type} (q : List (List (Envelope α))) :
    (qPayloads q).length = qCount q := by
  induction q with
  | nil => rfl
  | cons b q ih => simp [ih]

@[simp] theorem bufPayloads_nil {α : Type} : bufPayloads ([] : List (α × Nat)) = [] := rfl

@[simp] theorem bufPayloads_append {α : Type} (b₁ b₂ : List (α × Nat)) :
    bufPayloads (b₁ ++ b₂) = bufPayloads b₁ ++ bufPayloads b₂ := by
  simp [bufPayloads]

@[simp] theorem bufPayloads_length {α : Type} (buf : List (α × Nat)) :
    (bufPayloads buf).length = buf.length := by
  simp [bufPayloads]

/-! ### Facts about `stampBatch`, `mkRecords`, `dequeAppend` -/

@[simp] theorem stampBatch_nil {α : Type} (clock : Nat → Nat) (tick n0 : Nat) :
    stampBatch clock tick n0 ([] : List (α × Nat)) = [] := rfl

@[simp] theorem stampBatch_length {α : Type} (clock : Nat → Nat) (tick n0 : Nat)
    (buf : List (α × Nat)) : (stampBatch clock tick n0 buf).length = buf.length := by
  induction buf generalizing tick n0 with
  | nil => rfl
  | cons p rest ih => cases p; simp [stampBatch, ih]

@[simp] theorem stampBatch_payloads {α : Type} (clock : Nat → Nat) (tick n0 : Nat)
    (buf : List (α × Nat)) :
    batchPayloads (stampBatch clock tick n0 buf) = bufPayloads buf := by
  induction buf generalizing tick n0 with
  | nil => rfl
  | cons p rest ih => cases p; simp [stampBatch, batchPayloads, bufPayloads] at ih ⊢; exact ih _ _

@[simp] theorem stampBatch_seqs {α : Type} (clock : Nat → Nat) (tick n0 : Nat)
    (buf : List (α × Nat)) :
    batchSeqs (stampBatch clock tick n0 buf) = List.range' n0 buf.length := by
  induction buf generalizing tick n0 with
  | nil => rfl
  | cons p rest ih =>
      cases p
      simp [stampBatch, batchSeqs, List.range'_succ] at ih ⊢
      exact ih _ _

theorem stampBatch_mem {α : Type} (clock : Nat → Nat) (tick n0 : Nat)
    (buf : List (α × Nat)) (e : Envelope α) (he : e ∈ stampBatch clock tick n0 buf) :
    ∃ p ∈ buf, ∃ k, e.s0 = p.2 ∧ e.s1 = clock (tick + k) := by
  induction buf generalizing tick n0 with
  | nil => simp [stampBatch] at he
  | cons p rest ih =>
      obtain ⟨a, s0⟩ := p
      simp only [stampBatch, List.mem_cons] at he
      rcases he with rfl | he
      · exact ⟨(a, s0), by simp, 0, rfl, by simp⟩
      · obtain ⟨p', hp', k, h1, h2⟩ := ih _ _ he
        refine ⟨p', by simp [hp'], k + 1, h1, ?_⟩
        have hh : tick + (k + 1) = tick + 1 + k := by omega
        rw [hh]; exact h2

@[simp] theorem mkRecords_nil {α : Type} (clock : Nat → Nat) (t0 tick : Nat) :
    mkRecords clock t0 tick ([] : List (Envelope α)) = [] := rfl

@[simp] theorem mkRecords_length {α : Type} (clock : Nat → Nat) (t0 tick : Nat)
    (b : List (Envelope α)) : (mkRecords clock t0 tick b).length = b.length := by
  induction b generalizing tick with
  | nil => rfl
  | cons e rest ih => simp [mkRecords, ih]

theorem mkRecords_map_t1 {α : Type} (clock : Nat → Nat) (t0 tick : Nat)
    (b : List (Envelope α)) :
    (mkRecords clock t0 tick b).map MRecord.t1 = (List.range' tick b.length).map clock := by
  induction b generalizing tick with
  | nil => rfl
  | cons e rest ih => simp [mkRecords, List.range'_succ, ih]

theorem mkRecords_mem {α : Type} (clock : Nat → Nat) (t0 tick : Nat)
    (b : List (Envelope α)) (rec : MRecord) (hr : rec ∈ mkRecords clock t0 tick b) :
    ∃ e ∈ b, ∃ k, rec = ⟨e.s0, e.s1, t0, clock (tick + k)⟩ := by
  induction b generalizing tick with
  | nil => simp [mkRecords] at hr
  | cons e rest ih =>
      simp only [mkRecords, List.mem_cons] at hr
      rcases hr with rfl | hr
      · exact ⟨e, by simp, 0, by simp⟩
      · obtain ⟨e', he', k, h⟩ := ih _ hr
        refine ⟨e', by simp [he'], k + 1, ?_⟩
        have hh : tick + (k + 1) = tick + 1 + k := by omega
        rw [hh]; exact h

theorem dequeAppend_of_lt (l : List MRecord) (x : MRecord)
    (h : l.length < LOG_MAXLEN) : dequeAppend l x = l ++ [x] := by
  simp [dequeAppend, h]

/-! ### The fetch loop -/

/-- When the batch's sequence numbers continue the log exactly and the
log stays within its capacity, the fetch loop succeeds and its effect is
explicit: payloads appended to the delivery buffer, one record per
message appended to the log, one tick per message consumed. -/
theorem fetchLoop_nil {α : Type} (clock : Nat → Nat) (t0 : Nat) (s : Sys α) :
    fetchLoop clock t0 [] s = .ok s := rfl

theorem fetchLoop_cons {α : Type} (clock : Nat → Nat) (t0 : Nat) (e : Envelope α)
    (rest : List (Envelope α)) (s : Sys α) :
    fetchLoop clock t0 (e :: rest) s =
      if e.n = s.r.log.length then
        fetchLoop clock t0 rest
          { s with tick := s.tick + 1,
                   observed := s.observed ++ [e.n],
                   r := { buffer := s.r.buffer ++ [e.obj],
                          log := dequeAppend s.r.log ⟨e.s0, e.s1, t0, clock s.tick⟩ } }
      else .error .assertionFailed := rfl

theorem fetchLoop_ok {α : Type} (clock : Nat → Nat) (t0 : Nat) (b : List (Envelope α))
    (s : Sys α)
    (hseq : batchSeqs b = List.range' s.r.log.length b.length)
    (hcap : s.r.log.length + b.length ≤ LOG_MAXLEN) :
    fetchLoop clock t0 b s = .ok
      { s with tick := s.tick + b.length,
               observed := s.observed ++ batchSeqs b,
               r := { buffer := s.r.buffer ++ batchPayloads b,
                      log := s.r.log ++ mkRecords clock t0 s.tick b } } := by
  induction b generalizing s with
  | nil =>
      simp [fetchLoop_nil, batchSeqs, batchPayloads]
  | cons e rest ih =>
      simp only [batchSeqs, List.map_cons, List.length_cons, List.range'_succ] at hseq
      injection hseq with hn hrest
      have hlt : s.r.log.length < LOG_MAXLEN := by
        simp only [List.length_cons] at hcap; omega
      rw [fetchLoop_cons, if_pos hn, dequeAppend_of_lt _ _ hlt,
        ih _ (by simpa [batchSeqs] using hrest) (by simp only [List.length_cons] at hcap; simp; omega)]
      simp only [Except.ok.injEq, Sys.mk.injEq, CRState.mk.injEq, mkRecords, batchSeqs,
        batchPayloads, List.map_cons, List.append_assoc, List.cons_append,
        List.singleton_append, List.length_cons, List.length_append, hn,
        List.nil_append, eq_self_iff_true, true_and, and_true]
      omega

/-- Conversely, a successful fetch loop (within log capacity) forces the
batch's sequence numbers to continue the log exactly. -/
theorem fetchLoop_ok_inv {α : Type} (clock : Nat → Nat) (t0 : Nat) (b : List (Envelope α))
    (s s1 : Sys α)
    (hcap : s.r.log.length + b.length ≤ LOG_MAXLEN)
    (h : fetchLoop clock t0 b s = .ok s1) :
    batchSeqs b = List.range' s.r.log.length b.length := by
  induction b generalizing s with
  | nil => simp [batchSeqs]
  | cons e rest ih =>
      rw [fetchLoop_cons] at h
      by_cases hn : e.n = s.r.log.length
      · rw [if_pos hn,
          dequeAppend_of_lt _ _ (by simp only [List.length_cons] at hcap; omega)] at h
        have hr := ih _ (by simp only [List.length_cons] at hcap; simp; omega) h
        simp only [batchSeqs, List.map_cons, List.length_cons, List.range'_succ]
        simp only [List.length_append, List.length_singleton, batchSeqs] at hr
        exact List.cons_eq_cons.mpr ⟨hn, hr⟩
      · rw [if_neg hn] at h; cases h

theorem fetch_none {α : Type} (clock : Nat → Nat) (s : Sys α) (hq : s.q = []) :
    fetch clock s = .error .wouldBlock := by
  obtain ⟨tick, q, w, r, rc, dr, st, sl, fe, ob⟩ := s
  dsimp only at hq
  subst hq
  rfl

theorem fetch_cons {α : Type} (clock : Nat → Nat) (b : List (Envelope α))
    (rest : List (List (Envelope α))) (s : Sys α) (hq : s.q = b :: rest) :
    fetch clock s = fetchLoop clock (clock s.tick) b
      { s with tick := s.tick + 1, q := rest, fetches := s.fetches + 1 } := by
  obtain ⟨tick, q, w, r, rc, dr, st, sl, fe, ob⟩ := s
  dsimp only at hq
  subst hq
  rfl

/-- A successful fetch, explicitly. -/
theorem fetch_ok {α : Type} (clock : Nat → Nat) (s : Sys α) (b : List (Envelope α))
    (rest : List (List (Envelope α))) (hq : s.q = b :: rest)
    (hseq : batchSeqs b = List.range' s.r.log.length b.length)
    (hcap : s.r.log.length + b.length ≤ LOG_MAXLEN) :
    fetch clock s = .ok
      { s with tick := s.tick + 1 + b.length, q := rest, fetches := s.fetches + 1,
               observed := s.observed ++ batchSeqs b,
               r := { buffer := s.r.buffer ++ batchPayloads b,
                      log := s.r.log ++ mkRecords clock (clock s.tick) (s.tick + 1) b } } := by
  rw [fetch_cons clock b rest s hq]
  rw [fetchLoop_ok clock (clock s.tick) b
    { s with tick := s.tick + 1, q := rest, fetches := s.fetches + 1 }
    (by simpa using hseq) (by simpa using hcap)]

/-! ### The protocol invariant -/


theorem init_invP {α : Type} : InvP (init : Sys α) := by
  refine ⟨rfl, rfl, rfl, rfl, rfl, rfl⟩

theorem InvP.sent_len {α : Type} {s : Sys α} (h : InvP s) :
    s.sent.length = s.w.n + s.w.buffer.length := by
  have := congrArg List.length h.horder
  simp only [allPayloads, List.length_append, qPayloads_length, bufPayloads_length] at this
  have h1 := h.hn
  have h2 := h.hlog
  have h3 := h.hcnt
  omega

theorem flush_invP {α : Type} (clock : Nat → Nat) (cap : Nat) (s : Sys α)
    (h : InvP s) : InvP (flush clock cap s) := by
  by_cases hf : qFull cap s.q
  · unfold flush; rw [if_pos hf]
    exact ⟨h.hn, h.hseq, h.hlog, h.hobs, h.hcnt, h.horder⟩
  · unfold flush; rw [if_neg hf]
    refine ⟨?_, ?_, h.hlog, h.hobs, h.hcnt, ?_⟩
    · simp only [qCount_append, qCount_cons, qCount_nil, stampBatch_length]
      have := h.hn; omega
    · simp only [qSeqs_append, qSeqs_cons, qSeqs_nil, stampBatch_seqs, List.append_nil,
        qCount_append, qCount_cons, qCount_nil, stampBatch_length, Nat.add_zero]
      rw [h.hseq, h.hn, Nat.add_comm (qCount s.q) s.w.buffer.length]
      exact List.range'_append_1 _ _ _
    · have ho := h.horder
      simp only [allPayloads] at ho ⊢
      simp only [qPayloads_append, qPayloads_cons, qPayloads_nil, stampBatch_payloads,
        bufPayloads_nil, List.append_nil]
      rw [← ho]
      simp [List.append_assoc]

theorem send_invP {α : Type} (clock : Nat → Nat) (cap freq : Nat) (a : α) (s : Sys α)
    (h : InvP s) : InvP (send clock cap freq a s) := by
  have h1 : InvP
      { s with tick := s.tick + 1,
               w := { s.w with buffer := s.w.buffer ++ [(a, clock s.tick)] },
               sent := s.sent ++ [a] } := by
    refine ⟨h.hn, h.hseq, h.hlog, h.hobs, h.hcnt, ?_⟩
    simp only [allPayloads, bufPayloads_append]
    rw [← h.horder]
    simp [allPayloads, bufPayloads]
  unfold send
  by_cases hc : clock s.tick < s.w.last_successful_put + freq
  · rw [if_pos hc]; exact h1
  · rw [if_neg hc]; exact flush_invP clock cap _ h1

/-- `range o` followed by the next `k` naturals is `range (o + k)`. -/
theorem range_append_range' (o k : Nat) :
    List.range o ++ List.range' o k = List.range (o + k) := by
  rw [List.range_eq_range', List.range_eq_range']
  have h := List.range'_append_1 0 o k
  rw [Nat.zero_add] at h
  rw [Nat.add_comm o k]
  exact h

/-- Under the invariant, the front batch of the queue carries exactly
the sequence interval the reader expects next. -/
theorem qSeqs_front {α : Type} {s : Sys α} (h : InvP s) {b : List (Envelope α)}
    {rest : List (List (Envelope α))} (hq : s.q = b :: rest) :
    batchSeqs b = List.range' s.r.log.length b.length ∧
      qSeqs rest = List.range' (s.r.log.length + b.length) (qCount rest) := by
  have hs := h.hseq
  rw [hq] at hs
  simp only [qSeqs_cons, qCount_cons] at hs
  have hsplit : List.range' s.r.log.length (b.length + qCount rest)
      = List.range' s.r.log.length b.length
        ++ List.range' (s.r.log.length + b.length) (qCount rest) := by
    rw [List.range'_append_1, Nat.add_comm]
  rw [hsplit] at hs
  have := List.append_inj hs (by simp)
  simpa using this

/-- The writer's counter stays within the log capacity bound needed to
rule out log eviction during a fetch. -/
theorem fetch_cap {α : Type} {s : Sys α} (h : InvP s) {b : List (Envelope α)}
    {rest : List (List (Envelope α))} (hq : s.q = b :: rest)
    (hwn : s.w.n ≤ LOG_MAXLEN) :
    s.r.log.length + b.length ≤ LOG_MAXLEN := by
  have hn := h.hn
  rw [hq] at hn
  simp only [qCount_cons] at hn
  omega

/-- A successful fetch from the invariant is the `fetch_ok` success and
preserves the invariant (provided the writer's counter is within the log
capacity, which rules out eviction). -/
theorem fetch_invP {α : Type} (clock : Nat → Nat) (s s1 : Sys α) (h : InvP s)
    (hwn : s.w.n ≤ LOG_MAXLEN) (hf : fetch clock s = .ok s1) : InvP s1 := by
  match hq : s.q with
  | [] => rw [fetch_none clock s hq] at hf; cases hf
  | b :: rest =>
      obtain ⟨hb, hrest⟩ := qSeqs_front h hq
      have hcap := fetch_cap h hq hwn
      rw [fetch_ok clock s b rest hq hb hcap] at hf
      injection hf with hf
      subst hf
      have hlen : (s.r.log ++ mkRecords clock (clock s.tick) (s.tick + 1) b).length
          = s.r.log.length + b.length := by simp
      refine ⟨?_, ?_, ?_, ?_, ?_, ?_⟩
      · show s.w.n = _ + qCount rest
        rw [hlen]
        have hn := h.hn; rw [hq] at hn; simp only [qCount_cons] at hn; omega
      · show qSeqs rest = _
        rw [hlen]; exact hrest
      · show _ = (s.observed ++ batchSeqs b).length
        rw [hlen]
        simp [h.hlog]
      · show s.observed ++ batchSeqs b
            = List.range (s.observed ++ batchSeqs b).length
        rw [hb, h.hlog]
        simp only [List.length_append, List.length_range']
        rw [← range_append_range' s.observed.length b.length, ← h.hobs]
      · show s.received.length + (s.r.buffer ++ batchPayloads b).length = _
        simp only [List.length_append, batchPayloads_length, batchSeqs_length]
        have := h.hcnt; omega
      · show s.received ++ (s.r.buffer ++ batchPayloads b) ++ qPayloads rest
            ++ bufPayloads s.w.buffer = s.sent
        have ho := h.horder
        simp only [allPayloads] at ho
        rw [hq] at ho
        simp only [qPayloads_cons] at ho
        rw [← ho]
        simp [List.append_assoc]

/-- Popping the head of a non-empty delivery buffer (the tail of
`CR.recv`) preserves the invariant. -/
theorem pop_invP {α : Type} {s : Sys α} {a : α} {rest : List α}
    (hb : s.r.buffer = a :: rest) (h : InvP s) :
    InvP { s with r := { s.r with buffer := rest },
                  received := s.received ++ [a] } := by
  refine ⟨h.hn, h.hseq, h.hlog, h.hobs, ?_, ?_⟩
  · show (s.received ++ [a]).length + rest.length = s.observed.length
    have hc := h.hcnt
    rw [hb] at hc
    simp only [List.length_append, List.length_cons, List.length_singleton,
      List.length_nil] at hc ⊢
    omega
  · show (s.received ++ [a]) ++ rest ++ qPayloads s.q ++ bufPayloads s.w.buffer = s.sent
    have ho := h.horder
    simp only [allPayloads] at ho
    rw [hb] at ho
    rw [← ho]
    simp

/-! ### Unfolding `recv` -/

theorem recv_buffer_cons {α : Type} (clock : Nat → Nat) (s : Sys α) (a : α)
    (rest : List α) (hb : s.r.buffer = a :: rest) :
    recv clock s = .ok { s with r := { s.r with buffer := rest },
                                received := s.received ++ [a] } := by
  obtain ⟨tick, q, w, r, rc, dr, st, sl, fe, ob⟩ := s
  obtain ⟨rbuf, rlog⟩ := r
  dsimp only at hb
  subst hb
  rfl

theorem recv_buffer_nil {α : Type} (clock : Nat → Nat) (s : Sys α)
    (hb : s.r.buffer = []) :
    recv clock s =
      match fetch clock s with
      | .error e => .error e
      | .ok s1 =>
          match s1.r.buffer with
          | [] => .error .indexError
          | a :: rest =>
              .ok { s1 with r := { s1.r with buffer := rest },
                            received := s1.received ++ [a] } := by
  obtain ⟨tick, q, w, r, rc, dr, st, sl, fe, ob⟩ := s
  obtain ⟨rbuf, rlog⟩ := r
  dsimp only at hb
  subst hb
  rfl

/-- A successful `recv` preserves the invariant. -/
theorem recv_invP {α : Type} (clock : Nat → Nat) (s s1 : Sys α) (h : InvP s)
    (hwn : s.w.n ≤ LOG_MAXLEN) (hr : recv clock s = .ok s1) : InvP s1 := by
  match hb : s.r.buffer with
  | a :: rest =>
      rw [recv_buffer_cons clock s a rest hb] at hr
      injection hr with hr
      rw [← hr]
      exact pop_invP hb h
  | [] =>
      rw [recv_buffer_nil clock s hb] at hr
      match hf : fetch clock s with
      | .error e => rw [hf] at hr; cases hr
      | .ok s2 =>
          rw [hf] at hr
          dsimp only at hr
          have h2 : InvP s2 := fetch_invP clock s s2 h hwn hf
          match hb2 : s2.r.buffer with
          | [] => rw [hb2] at hr; cases hr
          | a :: rest =>
              rw [hb2] at hr
              dsimp only at hr
              injection hr with hr
              rw [← hr]
              exact pop_invP hb2 h2

/-! ### Writer-side field bookkeeping -/

theorem flush_fields {α : Type} (clock : Nat → Nat) (cap : Nat) (s : Sys α) :
    (flush clock cap s).r = s.r ∧ (flush clock cap s).received = s.received
      ∧ (flush clock cap s).sent = s.sent
      ∧ (flush clock cap s).observed = s.observed
      ∧ (flush clock cap s).drained = s.drained
      ∧ (flush clock cap s).fetches = s.fetches := by
  unfold flush
  split <;> exact ⟨rfl, rfl, rfl, rfl, rfl, rfl⟩

theorem send_fields {α : Type} (clock : Nat → Nat) (cap freq : Nat) (a : α)
    (s : Sys α) :
    (send clock cap freq a s).r = s.r
      ∧ (send clock cap freq a s).received = s.received
      ∧ (send clock cap freq a s).sent = s.sent ++ [a]
      ∧ (send clock cap freq a s).observed = s.observed
      ∧ (send clock cap freq a s).drained = s.drained
      ∧ (send clock cap freq a s).fetches = s.fetches := by
  unfold send
  dsimp only
  by_cases hc : clock s.tick < s.w.last_successful_put + freq
  · rw [if_pos hc]; exact ⟨rfl, rfl, rfl, rfl, rfl, rfl⟩
  · rw [if_neg hc]; exact flush_fields clock cap _

/-! ### Queue shape: every batch except possibly the last is non-empty -/


theorem okQ_nil {α : Type} : okQ ([] : List (List (Envelope α))) := by
  intro b hb; cases hb

theorem okQ_tail {α : Type} {b : List (Envelope α)} {q : List (List (Envelope α))}
    (h : okQ (b :: q)) : okQ q := by
  intro c hc
  match q with
  | [] => cases hc
  | d :: q' =>
      exact h c (by rw [List.dropLast_cons₂]; exact List.mem_cons_of_mem _ hc)

theorem okQ_front {α : Type} {b : List (Envelope α)} {q : List (List (Envelope α))}
    (h : okQ (b :: q)) (hc : 0 < qCount (b :: q)) : b ≠ [] := by
  match q with
  | [] =>
      intro hb
      subst hb
      simp [qCount] at hc
  | d :: q' =>
      exact h b (by rw [List.dropLast_cons₂]; exact List.mem_cons_self _ _)

theorem okQ_concat {α : Type} {q : List (List (Envelope α))}
    (hall : ∀ b ∈ q, b ≠ []) (x : List (Envelope α)) : okQ (q ++ [x]) := by
  intro b hb
  rw [List.dropLast_concat] at hb
  exact hall b hb

/-! ### `recv` succeeds whenever a payload is pending -/

/-- When at least one payload is pending (in the delivery buffer or the
queue) `recv` succeeds, hands over exactly the oldest pending payload,
preserves the invariant and the queue shape, leaves the writer state
alone, and conserves the multiset of payloads. -/
theorem recv_ok {α : Type} (clock : Nat → Nat) (s : Sys α) (h : InvP s)
    (hok : okQ s.q) (hwn : s.w.n ≤ LOG_MAXLEN)
    (hpend : 0 < s.r.buffer.length + qCount s.q) :
    ∃ s1, recv clock s = .ok s1 ∧ InvP s1 ∧ okQ s1.q
      ∧ s1.w = s.w ∧ s1.sent = s.sent ∧ s1.drained = s.drained
      ∧ s1.received ++ s1.r.buffer ++ qPayloads s1.q
          = s.received ++ s.r.buffer ++ qPayloads s.q
      ∧ s1.r.buffer.length + qCount s1.q + 1 = s.r.buffer.length + qCount s.q := by
  match hb : s.r.buffer with
  | a :: rest =>
      refine ⟨_, recv_buffer_cons clock s a rest hb, pop_invP hb h, hok, rfl, rfl, rfl,
        ?_, ?_⟩
      · dsimp only
        simp
      · dsimp only
        simp only [List.length_cons]
        omega
  | [] =>
      have hqc : 0 < qCount s.q := by
        rw [hb] at hpend; simpa using hpend
      match hq : s.q with
      | [] => rw [hq] at hqc; simp at hqc
      | b :: rest' =>
          have hok' : okQ (b :: rest') := hq ▸ hok
          have hbne : b ≠ [] := okQ_front hok' (hq ▸ hqc)
          obtain ⟨e, b', rfl⟩ := List.exists_cons_of_ne_nil hbne
          obtain ⟨hbseq, -⟩ := qSeqs_front h hq
          have hcap := fetch_cap h hq hwn
          have hfok := fetch_ok clock s _ rest' hq hbseq hcap
          have hbuf2 : s.r.buffer ++ batchPayloads (e :: b')
              = e.obj :: batchPayloads b' := by
            rw [hb]; simp [batchPayloads]
          have h2 : InvP
              { s with tick := s.tick + 1 + (e :: b').length, q := rest',
                       fetches := s.fetches + 1,
                       observed := s.observed ++ batchSeqs (e :: b'),
                       r := { buffer := s.r.buffer ++ batchPayloads (e :: b'),
                              log := s.r.log
                                ++ mkRecords clock (clock s.tick) (s.tick + 1) (e :: b') } } :=
            fetch_invP clock s _ h hwn hfok
          have hrecv : recv clock s = .ok
              { s with tick := s.tick + 1 + (e :: b').length, q := rest',
                       fetches := s.fetches + 1,
                       observed := s.observed ++ batchSeqs (e :: b'),
                       received := s.received ++ [e.obj],
                       r := { buffer := batchPayloads b',
                              log := s.r.log
                                ++ mkRecords clock (clock s.tick) (s.tick + 1) (e :: b') } } := by
            rw [recv_buffer_nil clock s hb, hfok]
            dsimp only
            rw [hbuf2]
          refine ⟨_, hrecv, ?_, okQ_tail hok', rfl, rfl, rfl, ?_, ?_⟩
          · exact pop_invP hbuf2 h2
          · dsimp only
            simp [batchPayloads, List.append_assoc]
          · dsimp only
            simp only [qCount_cons, List.length_nil, List.length_cons,
              batchPayloads_length]
            omega

/-! ### Running unfolding lemmas -/

theorem runOps_nil {α : Type} (clock : Nat → Nat) (cap freq : Nat) (s : Sys α) :
    runOps clock cap freq s [] = .ok s := rfl

theorem runOps_cons {α : Type} (clock : Nat → Nat) (cap freq : Nat) (s : Sys α)
    (op : Op α) (ops : List (Op α)) :
    runOps clock cap freq s (op :: ops) =
      match step clock cap freq s op with
      | .error e => .error e
      | .ok s1 => runOps clock cap freq s1 ops := rfl

theorem runOps_cons_ok {α : Type} {clock : Nat → Nat} {cap freq : Nat} {s s1 : Sys α}
    {op : Op α} (ops : List (Op α)) (h : step clock cap freq s op = .ok s1) :
    runOps clock cap freq s (op :: ops) = runOps clock cap freq s1 ops := by
  rw [runOps_cons, h]

theorem step_send {α : Type} (clock : Nat → Nat) (cap freq : Nat) (a : α) (s : Sys α) :
    step clock cap freq s (Op.send a) = .ok (send clock cap freq a s) := rfl

theorem step_flush {α : Type} (clock : Nat → Nat) (cap freq : Nat) (s : Sys α) :
    step clock cap freq s Op.flush = .ok (flush clock cap s) := rfl

theorem step_fetch {α : Type} (clock : Nat → Nat) (cap freq : Nat) (s : Sys α) :
    step clock cap freq s Op.fetch = fetch clock s := rfl

theorem step_recv {α : Type} (clock : Nat → Nat) (cap freq : Nat) (s : Sys α) :
    step clock cap freq s Op.recv = recv clock s := rfl

theorem step_drain {α : Type} (clock : Nat → Nat) (cap freq : Nat) (s : Sys α) :
    step clock cap freq s Op.drain = .ok (flush_log_using s) := rfl

/-- Receiving every pending payload, one `recv` per payload, succeeds
and delivers them in order after what was already received. -/
theorem recvPhase {α : Type} (clock : Nat → Nat) (cap freq : Nat) :
    ∀ (k : Nat) (s : Sys α), InvP s → okQ s.q → s.w.n ≤ LOG_MAXLEN →
      k = s.r.buffer.length + qCount s.q →
      ∃ s1, runOps clock cap freq s (List.replicate k Op.recv) = .ok s1
        ∧ s1.received = s.received ++ s.r.buffer ++ qPayloads s.q
        ∧ s1.sent = s.sent ∧ InvP s1 := by
  intro k
  induction k with
  | zero =>
      intro s h hok hwn hk
      refine ⟨s, rfl, ?_, rfl, h⟩
      have h1 : s.r.buffer = [] := List.eq_nil_of_length_eq_zero (by omega)
      have h2 : qPayloads s.q = [] := List.eq_nil_of_length_eq_zero
        (by rw [qPayloads_length]; omega)
      simp [h1, h2]
  | succ k ih =>
      intro s h hok hwn hk
      obtain ⟨s1, hr, h1, hok1, hw1, hsent1, hdr1, havl, hcnt⟩ :=
        recv_ok clock s h hok hwn (by omega)
      obtain ⟨s2, hrun, hrec, hsent2, h2⟩ := ih s1 h1 hok1 (by rw [hw1]; exact hwn)
        (by omega)
      refine ⟨s2, ?_, ?_, by rw [hsent2, hsent1], h2⟩
      · rw [List.replicate_succ,
          runOps_cons_ok _ (by rw [step_recv]; exact hr), hrun]
      · rw [hrec, havl]

theorem runOps_append {α : Type} (clock : Nat → Nat) (cap freq : Nat) (s : Sys α)
    (l1 l2 : List (Op α)) :
    runOps clock cap freq s (l1 ++ l2) =
      match runOps clock cap freq s l1 with
      | .error e => .error e
      | .ok s1 => runOps clock cap freq s1 l2 := by
  induction l1 generalizing s with
  | nil => rfl
  | cons op l1 ih =>
      rw [List.cons_append, runOps_cons, runOps_cons]
      match step clock cap freq s op with
      | .error e => rfl
      | .ok s1 => exact ih s1

theorem runOps_append_ok {α : Type} {clock : Nat → Nat} {cap freq : Nat}
    {s s1 : Sys α} {l1 : List (Op α)} (l2 : List (Op α))
    (h : runOps clock cap freq s l1 = .ok s1) :
    runOps clock cap freq s (l1 ++ l2) = runOps clock cap freq s1 l2 := by
  rw [runOps_append, h]

/-! ### The two branches of `flush`, explicitly -/

theorem flush_full {α : Type} (clock : Nat → Nat) (cap : Nat) (s : Sys α)
    (h : qFull cap s.q) :
    flush clock cap s =
      { s with tick := s.tick + RETRY_FLUSH_ON_QUEUE_FULL * s.w.buffer.length,
               sleeps := s.sleeps + RETRY_FLUSH_ON_QUEUE_FULL } := by
  unfold flush; rw [if_pos h]

theorem flush_nonfull {α : Type} (clock : Nat → Nat) (cap : Nat) (s : Sys α)
    (h : ¬ qFull cap s.q) :
    flush clock cap s =
      { s with q := s.q ++ [stampBatch clock s.tick s.w.n s.w.buffer],
               tick := s.tick + s.w.buffer.length + 1,
               w := { n := s.w.n + s.w.buffer.length,
                      buffer := [],
                      last_successful_put := clock (s.tick + s.w.buffer.length) } } := by
  unfold flush; rw [if_neg h]

theorem stampBatch_ne_nil {α : Type} (clock : Nat → Nat) (tick n0 : Nat)
    (buf : List (α × Nat)) (h : buf ≠ []) :
    stampBatch clock tick n0 buf ≠ [] := by
  intro hc
  apply h
  have := stampBatch_length clock tick n0 buf
  rw [hc] at this
  exact List.eq_nil_of_length_eq_zero this.symm

/-! ### The send phase -/


theorem runOps_sends {α : Type} (clock : Nat → Nat) (cap freq : Nat) (xs : List α)
    (s : Sys α) :
    runOps clock cap freq s (xs.map Op.send) = .ok (applySends clock cap freq xs s) := by
  induction xs generalizing s with
  | nil => rfl
  | cons a xs ih =>
      rw [List.map_cons, runOps_cons_ok _ (step_send clock cap freq a s)]
      exact ih _

theorem applySends_fields {α : Type} (clock : Nat → Nat) (cap freq : Nat)
    (xs : List α) (s : Sys α) :
    (applySends clock cap freq xs s).r = s.r
      ∧ (applySends clock cap freq xs s).received = s.received
      ∧ (applySends clock cap freq xs s).sent = s.sent ++ xs
      ∧ (applySends clock cap freq xs s).observed = s.observed
      ∧ (applySends clock cap freq xs s).drained = s.drained := by
  induction xs generalizing s with
  | nil => exact ⟨rfl, rfl, by simp [applySends], rfl, rfl⟩
  | cons a xs ih =>
      obtain ⟨h1, h2, h3, h4, h5⟩ := ih (send clock cap freq a s)
      obtain ⟨g1, g2, g3, g4, g5, g6⟩ := send_fields clock cap freq a s
      exact ⟨by rw [applySends, h1, g1], by rw [applySends, h2, g2],
        by rw [applySends, h3, g3]; simp, by rw [applySends, h4, g4],
        by rw [applySends, h5, g5]⟩

theorem flush_allNE {α : Type} (clock : Nat → Nat) (cap : Nat) (s : Sys α)
    (hne : s.w.buffer ≠ []) (hall : ∀ b ∈ s.q, b ≠ []) :
    ∀ b ∈ (flush clock cap s).q, b ≠ [] := by
  by_cases hf : qFull cap s.q
  · rw [flush_full clock cap s hf]; exact hall
  · rw [flush_nonfull clock cap s hf]
    intro b hb
    rcases List.mem_append.mp hb with h1 | h1
    · exact hall b h1
    · rw [List.mem_singleton] at h1
      subst h1
      exact stampBatch_ne_nil clock s.tick s.w.n s.w.buffer hne

theorem send_allNE {α : Type} (clock : Nat → Nat) (cap freq : Nat) (a : α)
    (s : Sys α) (hall : ∀ b ∈ s.q, b ≠ []) :
    ∀ b ∈ (send clock cap freq a s).q, b ≠ [] := by
  unfold send
  dsimp only
  by_cases hc : clock s.tick < s.w.last_successful_put + freq
  · rw [if_pos hc]; exact hall
  · rw [if_neg hc]
    exact flush_allNE clock cap _ (by simp) hall

theorem applySends_allNE {α : Type} (clock : Nat → Nat) (cap freq : Nat)
    (xs : List α) (s : Sys α) (hall : ∀ b ∈ s.q, b ≠ []) :
    ∀ b ∈ (applySends clock cap freq xs s).q, b ≠ [] := by
  induction xs generalizing s with
  | nil => exact hall
  | cons a xs ih => exact ih _ (send_allNE clock cap freq a s hall)

theorem applySends_invP {α : Type} (clock : Nat → Nat) (cap freq : Nat)
    (xs : List α) (s : Sys α) (h : InvP s) :
    InvP (applySends clock cap freq xs s) := by
  induction xs generalizing s with
  | nil => exact h
  | cons a xs ih => exact ih _ (send_invP clock cap freq a s h)

/-- C1.  Sending the payloads `xs` in order (each `send` may or may not
trigger an internal flush, and internal flushes may fail against a full
queue), then one successful explicit `flush` (the queue has room for it),
then `xs.length` calls to `recv`: the run succeeds and `recv` returns
exactly `xs`, in `send` order.  `hN` keeps the run within the metering
log's `2 ^ 32` capacity. -/
theorem C1_send_flush_recv_ordering {α : Type} (clock : Nat → Nat) (cap freq : Nat)
    (xs : List α) (hN : xs.length ≤ LOG_MAXLEN)
    (hfull : ¬ qFull cap (applySends clock cap freq xs (init : Sys α)).q) :
    ∃ s1, runOps clock cap freq init
        (xs.map Op.send ++ Op.flush :: List.replicate xs.length Op.recv) = .ok s1
      ∧ s1.received = xs := by
  obtain ⟨hAr, hArc, hAsent, hAob, hAdr⟩ :=
    applySends_fields clock cap freq xs (init : Sys α)
  have hInvA : InvP (applySends clock cap freq xs (init : Sys α)) :=
    applySends_invP clock cap freq xs init init_invP
  have hallA : ∀ b ∈ (applySends clock cap freq xs (init : Sys α)).q, b ≠ [] :=
    applySends_allNE clock cap freq xs init (by intro b hb; cases hb)
  have hInvB : InvP (flush clock cap (applySends clock cap freq xs (init : Sys α))) :=
    flush_invP clock cap _ hInvA
  have hBexp := flush_nonfull clock cap _ hfull
  obtain ⟨hBr, hBrec, hBsent, hBob, hBdr, hBfe⟩ :=
    flush_fields clock cap (applySends clock cap freq xs (init : Sys α))
  have hBbuf : (flush clock cap (applySends clock cap freq xs (init : Sys α))).w.buffer
      = [] := by rw [hBexp]
  have hBrecnil : (flush clock cap (applySends clock cap freq xs (init : Sys α))).received
      = [] := by rw [hBrec, hArc]; rfl
  have hBrbuf : (flush clock cap (applySends clock cap freq xs (init : Sys α))).r.buffer
      = [] := by rw [hBr, hAr]; rfl
  have hBlog : (flush clock cap (applySends clock cap freq xs (init : Sys α))).r.log
      = [] := by rw [hBr, hAr]; rfl
  have hBsentxs : (flush clock cap (applySends clock cap freq xs (init : Sys α))).sent
      = xs := by rw [hBsent, hAsent]; rfl
  have hBwn : (flush clock cap (applySends clock cap freq xs (init : Sys α))).w.n
      = xs.length := by
    have hl := hInvB.sent_len
    rw [hBbuf, hBsentxs] at hl
    simpa using hl.symm
  have hqB : qCount (flush clock cap (applySends clock cap freq xs (init : Sys α))).q
      = xs.length := by
    have hn := hInvB.hn
    rw [hBwn, hBlog] at hn
    simpa using hn.symm
  have hqPB : qPayloads (flush clock cap (applySends clock cap freq xs (init : Sys α))).q
      = xs := by
    have ho := hInvB.horder
    simp only [allPayloads] at ho
    rw [hBrecnil, hBrbuf, hBbuf, hBsentxs] at ho
    simpa using ho
  have hokB : okQ (flush clock cap (applySends clock cap freq xs (init : Sys α))).q := by
    rw [hBexp]
    exact okQ_concat hallA _
  obtain ⟨s3, hrun3, hrec3, hsent3, hInv3⟩ :=
    recvPhase clock cap freq xs.length
      (flush clock cap (applySends clock cap freq xs (init : Sys α)))
      hInvB hokB (by rw [hBwn]; exact hN)
      (by rw [hBrbuf, hqB]; simp)
  refine ⟨s3, ?_, ?_⟩
  · rw [runOps_append_ok _ (runOps_sends clock cap freq xs init),
      runOps_cons_ok _ (step_flush clock cap freq _)]
    exact hrun3
  · rw [hrec3, hBrecnil, hBrbuf, hqPB]
    simp

/-! ### Frame lemmas: what each reader operation leaves untouched -/

theorem fetchLoop_frame {α : Type} {clock : Nat → Nat} {t0 : Nat}
    {b : List (Envelope α)} {s1 : Sys α} :
    ∀ {s : Sys α}, fetchLoop clock t0 b s = .ok s1 →
      s1.q = s.q ∧ s1.w = s.w ∧ s1.sent = s.sent ∧ s1.received = s.received
        ∧ s1.drained = s.drained ∧ s.tick ≤ s1.tick := by
  induction b with
  | nil =>
      intro s h
      rw [fetchLoop_nil] at h
      injection h with h
      rw [← h]
      exact ⟨rfl, rfl, rfl, rfl, rfl, Nat.le_refl _⟩
  | cons e rest ih =>
      intro s h
      rw [fetchLoop_cons] at h
      by_cases hn : e.n = s.r.log.length
      · rw [if_pos hn] at h
        have hi := ih h
        exact ⟨hi.1, hi.2.1, hi.2.2.1, hi.2.2.2.1, hi.2.2.2.2.1,
          Nat.le_trans (Nat.le_succ _) hi.2.2.2.2.2⟩
      · rw [if_neg hn] at h; cases h

theorem fetch_frame {α : Type} {clock : Nat → Nat} {s s1 : Sys α}
    (h : fetch clock s = .ok s1) :
    s1.w = s.w ∧ s1.sent = s.sent ∧ s1.received = s.received
      ∧ s1.drained = s.drained ∧ s.tick ≤ s1.tick := by
  match hq : s.q with
  | [] => rw [fetch_none clock s hq] at h; cases h
  | b :: rest =>
      rw [fetch_cons clock b rest s hq] at h
      obtain ⟨-, h2, h3, h4, h5, h6⟩ := fetchLoop_frame h
      exact ⟨h2, h3, h4, h5, Nat.le_trans (Nat.le_succ _) h6⟩

theorem recv_frame {α : Type} {clock : Nat → Nat} {s s1 : Sys α}
    (h : recv clock s = .ok s1) :
    s1.w = s.w ∧ s1.sent = s.sent ∧ s1.drained = s.drained ∧ s.tick ≤ s1.tick := by
  match hb : s.r.buffer with
  | a :: rest =>
      rw [recv_buffer_cons clock s a rest hb] at h
      injection h with h
      rw [← h]
      exact ⟨rfl, rfl, rfl, Nat.le_refl _⟩
  | [] =>
      rw [recv_buffer_nil clock s hb] at h
      match hf : fetch clock s with
      | .error e => rw [hf] at h; cases h
      | .ok s2 =>
          rw [hf] at h
          dsimp only at h
          obtain ⟨f1, f2, f3, f4, f5⟩ := fetch_frame hf
          match hb2 : s2.r.buffer with
          | [] => rw [hb2] at h; cases h
          | a :: rest =>
              rw [hb2] at h
              dsimp only at h
              injection h with h
              rw [← h]
              exact ⟨f1, f2, f4, f5⟩

/-! ### Drain-free runs preserve the invariant -/




theorem runOps_invP {α : Type} (clock : Nat → Nat) (cap freq : Nat) :
    ∀ (ops : List (Op α)) (s s1 : Sys α), InvP s → noDrain ops →
      s.sent.length + sendCount ops ≤ LOG_MAXLEN →
      runOps clock cap freq s ops = .ok s1 →
      InvP s1 ∧ s1.sent.length ≤ s.sent.length + sendCount ops := by
  intro ops
  induction ops with
  | nil =>
      intro s s1 h hnd hb hr
      rw [runOps_nil] at hr
      injection hr with hr
      rw [← hr]
      exact ⟨h, by omega⟩
  | cons op rest ih =>
      intro s s1 h hnd hb hr
      have hndr : noDrain rest := fun o ho => hnd o (List.mem_cons_of_mem _ ho)
      match op with
      | .send a =>
          rw [runOps_cons_ok _ (step_send clock cap freq a s)] at hr
          have hsl : (send clock cap freq a s).sent.length = s.sent.length + 1 := by
            rw [(send_fields clock cap freq a s).2.2.1]; simp
          have hc : sendCount (Op.send a :: rest) = sendCount rest + 1 := rfl
          rw [hc] at hb
          obtain ⟨hi1, hi2⟩ := ih _ _ (send_invP clock cap freq a s h) hndr
            (by rw [hsl]; omega) hr
          exact ⟨hi1, by rw [hsl] at hi2; omega⟩
      | .flush =>
          rw [runOps_cons_ok _ (step_flush clock cap freq s)] at hr
          have hsl : (flush clock cap s).sent = s.sent :=
            (flush_fields clock cap s).2.2.1
          have hc : sendCount (Op.flush :: rest) = sendCount rest := rfl
          rw [hc] at hb
          obtain ⟨hi1, hi2⟩ := ih _ _ (flush_invP clock cap s h) hndr
            (by rw [hsl]; omega) hr
          exact ⟨hi1, by rw [hsl] at hi2; omega⟩
      | .fetch =>
          rw [runOps_cons] at hr
          rw [step_fetch] at hr
          match hf : fetch clock s with
          | .error e => rw [hf] at hr; cases hr
          | .ok s2 =>
              rw [hf] at hr
              dsimp only at hr
              have hwn : s.w.n ≤ LOG_MAXLEN := by
                have := h.sent_len; omega
              have hsl : s2.sent = s.sent := (fetch_frame hf).2.1
              have hc : sendCount (Op.fetch :: rest) = sendCount rest := rfl
              rw [hc] at hb
              obtain ⟨hi1, hi2⟩ := ih _ _ (fetch_invP clock s s2 h hwn hf) hndr
                (by rw [hsl]; omega) hr
              exact ⟨hi1, by rw [hsl] at hi2; omega⟩
      | .recv =>
          rw [runOps_cons] at hr
          rw [step_recv] at hr
          match hf : recv clock s with
          | .error e => rw [hf] at hr; cases hr
          | .ok s2 =>
              rw [hf] at hr
              dsimp only at hr
              have hwn : s.w.n ≤ LOG_MAXLEN := by
                have := h.sent_len; omega
              have hsl : s2.sent = s.sent := (recv_frame hf).2.1
              have hc : sendCount (Op.recv :: rest) = sendCount rest := rfl
              rw [hc] at hb
              obtain ⟨hi1, hi2⟩ := ih _ _ (recv_invP clock s s2 h hwn hf) hndr
                (by rw [hsl]; omega) hr
              exact ⟨hi1, by rw [hsl] at hi2; omega⟩
      | .drain =>
          exact absurd rfl (hnd Op.drain (List.mem_cons_self _ _))

/-- Drain-free runs do not touch the `drained` observation. -/
theorem runOps_noDrain_drained {α : Type} (clock : Nat → Nat) (cap freq : Nat) :
    ∀ (ops : List (Op α)) (s s1 : Sys α), noDrain ops →
      runOps clock cap freq s ops = .ok s1 → s1.drained = s.drained := by
  intro ops
  induction ops with
  | nil =>
      intro s s1 hnd hr
      rw [runOps_nil] at hr
      injection hr with hr
      rw [← hr]
  | cons op rest ih =>
      intro s s1 hnd hr
      have hndr : noDrain rest := fun o ho => hnd o (List.mem_cons_of_mem _ ho)
      match op with
      | .send a =>
          rw [runOps_cons_ok _ (step_send clock cap freq a s)] at hr
          rw [ih _ _ hndr hr, (send_fields clock cap freq a s).2.2.2.2.1]
      | .flush =>
          rw [runOps_cons_ok _ (step_flush clock cap freq s)] at hr
          rw [ih _ _ hndr hr, (flush_fields clock cap s).2.2.2.2.1]
      | .fetch =>
          rw [runOps_cons, step_fetch] at hr
          match hf : fetch clock s with
          | .error e => rw [hf] at hr; cases hr
          | .ok s2 =>
              rw [hf] at hr
              dsimp only at hr
              rw [ih _ _ hndr hr, (fetch_frame hf).2.2.2.1]
      | .recv =>
          rw [runOps_cons, step_recv] at hr
          match hf : recv clock s with
          | .error e => rw [hf] at hr; cases hr
          | .ok s2 =>
              rw [hf] at hr
              dsimp only at hr
              rw [ih _ _ hndr hr, (recv_frame hf).2.2.1]
      | .drain =>
          exact absurd rfl (hnd Op.drain (List.mem_cons_self _ _))

/-- A sequence mismatch on the first envelope of the fetched batch is a
fatal assertion failure. -/
theorem fetch_mismatch {α : Type} (clock : Nat → Nat) (t : Sys α) (e : Envelope α)
    (brest : List (Envelope α)) (rest : List (List (Envelope α)))
    (hq : t.q = (e :: brest) :: rest) (hne : e.n ≠ t.r.log.length) :
    fetch clock t = .error .assertionFailed := by
  rw [fetch_cons clock _ rest t hq, fetchLoop_cons]
  dsimp only
  rw [if_neg hne]

/-! ### The timestamp invariant -/


theorem init_invT {α : Type} (clock : Nat → Nat) : InvT clock (init : Sys α) := by
  refine ⟨?_, ?_, ?_, ?_⟩ <;> intro x hx <;> cases hx

theorem flush_invT {α : Type} (clock : Nat → Nat) (cap : Nat) (hm : Mono clock)
    (s : Sys α) (h : InvT clock s) : InvT clock (flush clock cap s) := by
  by_cases hf : qFull cap s.q
  · rw [flush_full clock cap s hf]
    refine ⟨?_, h.henv, h.hrec, h.hdr⟩
    intro p hp
    exact Nat.le_trans (h.hbuf p hp) (hm _ _ (Nat.le_add_right _ _))
  · rw [flush_nonfull clock cap s hf]
    refine ⟨?_, ?_, h.hrec, h.hdr⟩
    · intro p hp; cases hp
    · intro b hb e he
      rcases List.mem_append.mp hb with h1 | h1
      · exact h.henv b h1 e he
      · rw [List.mem_singleton] at h1
        subst h1
        obtain ⟨p, hp, k, h1, h2⟩ := stampBatch_mem clock s.tick s.w.n s.w.buffer e he
        rw [h1, h2]
        exact Nat.le_trans (h.hbuf p hp) (hm _ _ (Nat.le_add_right _ _))

theorem send_invT {α : Type} (clock : Nat → Nat) (cap freq : Nat) (hm : Mono clock)
    (a : α) (s : Sys α) (h : InvT clock s) :
    InvT clock (send clock cap freq a s) := by
  have h1 : InvT clock
      { s with tick := s.tick + 1,
               w := { s.w with buffer := s.w.buffer ++ [(a, clock s.tick)] },
               sent := s.sent ++ [a] } := by
    refine ⟨?_, h.henv, h.hrec, h.hdr⟩
    intro p hp
    rcases List.mem_append.mp hp with h1 | h1
    · exact Nat.le_trans (h.hbuf p h1) (hm _ _ (Nat.le_succ _))
    · rw [List.mem_singleton] at h1
      subst h1
      exact hm _ _ (Nat.le_succ _)
  unfold send
  by_cases hc : clock s.tick < s.w.last_successful_put + freq
  · rw [if_pos hc]; exact h1
  · rw [if_neg hc]; exact flush_invT clock cap hm _ h1

theorem dequeAppend_forall (P : MRecord → Prop) (l : List MRecord) (x : MRecord)
    (hl : ∀ rec ∈ l, P rec) (hx : P x) :
    ∀ rec ∈ dequeAppend l x, P rec := by
  intro rec hr
  unfold dequeAppend at hr
  split at hr <;> rcases List.mem_append.mp hr with h1 | h1
  · exact hl rec h1
  · rw [List.mem_singleton] at h1; subst h1; exact hx
  · exact hl rec (List.mem_of_mem_tail h1)
  · rw [List.mem_singleton] at h1; subst h1; exact hx

theorem fetchLoop_invT {α : Type} {clock : Nat → Nat} (hm : Mono clock) :
    ∀ (b : List (Envelope α)) (t0 : Nat) {s s1 : Sys α},
      fetchLoop clock t0 b s = .ok s1 →
      (∀ e ∈ b, e.s0 ≤ e.s1) →
      (∀ k : Nat, t0 ≤ clock (s.tick + k)) →
      (∀ rec ∈ s.r.log, rec.s0 ≤ rec.s1 ∧ rec.t0 ≤ rec.t1) →
      ∀ rec ∈ s1.r.log, rec.s0 ≤ rec.s1 ∧ rec.t0 ≤ rec.t1 := by
  intro b
  induction b with
  | nil =>
      intro t0 s s1 h _ _ hlog
      rw [fetchLoop_nil] at h
      injection h with h
      rw [← h]
      exact hlog
  | cons e rest ih =>
      intro t0 s s1 h hb ht0 hlog
      rw [fetchLoop_cons] at h
      by_cases hn : e.n = s.r.log.length
      · rw [if_pos hn] at h
        refine ih t0 h (fun e' he' => hb e' (List.mem_cons_of_mem _ he')) ?_ ?_
        · intro k
          have := ht0 (1 + k)
          simpa [Nat.add_assoc] using this
        · dsimp only
          refine dequeAppend_forall _ _ _ hlog ⟨hb e (List.mem_cons_self _ _), ?_⟩
          simpa using ht0 0
      · rw [if_neg hn] at h; cases h

theorem fetch_invT {α : Type} (clock : Nat → Nat) (hm : Mono clock) {s s1 : Sys α}
    (h : InvT clock s) (hf : fetch clock s = .ok s1) : InvT clock s1 := by
  match hq : s.q with
  | [] => rw [fetch_none clock s hq] at hf; cases hf
  | b :: rest =>
      rw [fetch_cons clock b rest s hq] at hf
      obtain ⟨f1, f2, f3, f4, f5, f6⟩ := fetchLoop_frame hf
      have f6t : s.tick + 1 ≤ s1.tick := f6
      have hrec1 := fetchLoop_invT hm b (clock s.tick) hf
        (fun e he => h.henv b (by rw [hq]; exact List.mem_cons_self _ _) e he)
        (by intro k
            exact hm _ _ (Nat.le_trans (Nat.le_succ _) (Nat.le_add_right _ _)))
        h.hrec
      refine ⟨?_, ?_, hrec1, ?_⟩
      · intro p hp
        rw [f2] at hp
        exact Nat.le_trans (h.hbuf p hp) (hm _ _ (by omega))
        
      · intro b' hb'
        rw [f1] at hb'
        exact h.henv b' (by rw [hq]; exact List.mem_cons_of_mem _ hb')
      · intro rec hrec
        rw [f5] at hrec
        exact h.hdr rec hrec

theorem recv_invT {α : Type} (clock : Nat → Nat) (hm : Mono clock) {s s1 : Sys α}
    (h : InvT clock s) (hr : recv clock s = .ok s1) : InvT clock s1 := by
  match hb : s.r.buffer with
  | a :: rest =>
      rw [recv_buffer_cons clock s a rest hb] at hr
      injection hr with hr
      rw [← hr]
      exact ⟨h.hbuf, h.henv, h.hrec, h.hdr⟩
  | [] =>
      rw [recv_buffer_nil clock s hb] at hr
      match hf : fetch clock s with
      | .error e => rw [hf] at hr; cases hr
      | .ok s2 =>
          rw [hf] at hr
          dsimp only at hr
          have h2 := fetch_invT clock hm h hf
          match hb2 : s2.r.buffer with
          | [] => rw [hb2] at hr; cases hr
          | a :: rest =>
              rw [hb2] at hr
              dsimp only at hr
              injection hr with hr
              rw [← hr]
              exact ⟨h2.hbuf, h2.henv, h2.hrec, h2.hdr⟩

theorem drain_invT {α : Type} (clock : Nat → Nat) {s : Sys α} (h : InvT clock s) :
    InvT clock (flush_log_using s) := by
  refine ⟨h.hbuf, h.henv, ?_, ?_⟩
  · intro rec hrec; cases hrec
  · intro rec hrec
    rcases List.mem_append.mp hrec with h1 | h1
    · exact h.hdr rec h1
    · exact h.hrec rec h1

theorem runOps_invT {α : Type} (clock : Nat → Nat) (cap freq : Nat) (hm : Mono clock) :
    ∀ (ops : List (Op α)) (s s1 : Sys α), InvT clock s →
      runOps clock cap freq s ops = .ok s1 → InvT clock s1 := by
  intro ops
  induction ops with
  | nil =>
      intro s s1 h hr
      rw [runOps_nil] at hr
      injection hr with hr
      rw [← hr]
      exact h
  | cons op rest ih =>
      intro s s1 h hr
      match op with
      | .send a =>
          rw [runOps_cons_ok _ (step_send clock cap freq a s)] at hr
          exact ih _ _ (send_invT clock cap freq hm a s h) hr
      | .flush =>
          rw [runOps_cons_ok _ (step_flush clock cap freq s)] at hr
          exact ih _ _ (flush_invT clock cap hm s h) hr
      | .fetch =>
          rw [runOps_cons, step_fetch] at hr
          match hf : fetch clock s with
          | .error e => rw [hf] at hr; cases hr
          | .ok s2 =>
              rw [hf] at hr
              dsimp only at hr
              exact ih _ _ (fetch_invT clock hm h hf) hr
      | .recv =>
          rw [runOps_cons, step_recv] at hr
          match hf : recv clock s with
          | .error e => rw [hf] at hr; cases hr
          | .ok s2 =>
              rw [hf] at hr
              dsimp only at hr
              exact ih _ _ (recv_invT clock hm h hf) hr
      | .drain =>
          rw [runOps_cons_ok _ (step_drain clock cap freq s)] at hr
          exact ih _ _ (drain_invT clock h) hr

theorem fetchLoop_fetches {α : Type} {clock : Nat → Nat} {t0 : Nat}
    {b : List (Envelope α)} {s1 : Sys α} :
    ∀ {s : Sys α}, fetchLoop clock t0 b s = .ok s1 → s1.fetches = s.fetches := by
  induction b with
  | nil =>
      intro s h
      rw [fetchLoop_nil] at h
      injection h with h
      rw [← h]
  | cons e rest ih =>
      intro s h
      rw [fetchLoop_cons] at h
      by_cases hn : e.n = s.r.log.length
      · rw [if_pos hn] at h
        have hi := ih h
        exact hi
      · rw [if_neg hn] at h; cases h

/-! ### Concrete states used by the small-input evaluations -/







/-! ### The claims -/

/-- C2: in any drain-free run of the pipe from fresh endpoints (within
the metering log's `2 ^ 32` capacity), the sequence numbers the reader
observed are exactly `0, 1, 2, …` with no gaps and no repeats; the
metering log holds exactly one record per fetched message (its length
equals the number of fetched messages); and whenever a fetched
envelope's sequence number mismatches the current log length, `fetch`
fails with the fatal assertion instead of continuing. -/
theorem C2_sequence_protocol {α : Type} (clock : Nat → Nat) (cap freq : Nat)
    (ops : List (Op α)) (hnd : noDrain ops) (hbound : sendCount ops ≤ LOG_MAXLEN)
    (s1 : Sys α) (hrun : runOps clock cap freq init ops = .ok s1) :
    s1.observed = List.range s1.observed.length
      ∧ s1.r.log.length = s1.observed.length
      ∧ (∀ (t : Sys α) (e : Envelope α) (brest : List (Envelope α))
          (rest : List (List (Envelope α))),
          t.q = (e :: brest) :: rest → e.n ≠ t.r.log.length →
          fetch clock t = .error .assertionFailed) := by
  obtain ⟨hi, -⟩ := runOps_invP clock cap freq ops init s1 init_invP hnd
    (by simpa [init] using hbound) hrun
  exact ⟨hi.hobs, hi.hlog, fun t e brest rest hq hne =>
    fetch_mismatch clock t e brest rest hq hne⟩

theorem C2_witness :
    c2wState.observed = List.range c2wState.observed.length
      ∧ c2wState.r.log.length = c2wState.observed.length :=
  ⟨(C2_sequence_protocol id 4096 1000 [Op.send 37, Op.flush, Op.recv]
      (by decide) (by decide) c2wState rfl).1,
   (C2_sequence_protocol id 4096 1000 [Op.send 37, Op.flush, Op.recv]
      (by decide) (by decide) c2wState rfl).2.1⟩

/-- C3: on a full queue, `flush` retries the bounded
`RETRY_FLUSH_ON_QUEUE_FULL` times (sleeping once per retry), then
returns without raising (it is a total function), leaving the queue, the
buffer and the sequence counter untouched, so the same messages with the
same sequence assignments are re-attempted by the next flush; on a
non-full queue, `flush` enqueues the whole buffer as one batch carrying
exactly the buffered payloads with consecutive sequences starting at the
counter, clears the buffer, and advances the counter by the batch size.
In both cases the multiset of payloads in the system is conserved: no
loss, no duplication. -/
theorem C3_flush_backpressure {α : Type} (clock : Nat → Nat) (cap : Nat)
    (s : Sys α) :
    (qFull cap s.q →
      (flush clock cap s).w = s.w
        ∧ (flush clock cap s).q = s.q
        ∧ (flush clock cap s).sleeps = s.sleeps + RETRY_FLUSH_ON_QUEUE_FULL
        ∧ allPayloads (flush clock cap s) = allPayloads s)
    ∧ (¬ qFull cap s.q →
      (flush clock cap s).q = s.q ++ [stampBatch clock s.tick s.w.n s.w.buffer]
        ∧ batchPayloads (stampBatch clock s.tick s.w.n s.w.buffer)
            = bufPayloads s.w.buffer
        ∧ batchSeqs (stampBatch clock s.tick s.w.n s.w.buffer)
            = List.range' s.w.n s.w.buffer.length
        ∧ (flush clock cap s).w.buffer = []
        ∧ (flush clock cap s).w.n = s.w.n + s.w.buffer.length
        ∧ allPayloads (flush clock cap s) = allPayloads s) := by
  constructor
  · intro hf
    rw [flush_full clock cap s hf]
    exact ⟨rfl, rfl, rfl, rfl⟩
  · intro hf
    rw [flush_nonfull clock cap s hf]
    refine ⟨rfl, stampBatch_payloads clock s.tick s.w.n s.w.buffer,
      stampBatch_seqs clock s.tick s.w.n s.w.buffer, rfl, rfl, ?_⟩
    simp [allPayloads, List.append_assoc]

theorem C3_witness :
    (flush id 1 c3wState).w = c3wState.w
      ∧ (flush id 1 c3wState).sleeps = c3wState.sleeps + RETRY_FLUSH_ON_QUEUE_FULL
      ∧ (flush id 2 c3wState).w.buffer = []
      ∧ (flush id 2 c3wState).w.n = c3wState.w.n + c3wState.w.buffer.length :=
  ⟨((C3_flush_backpressure id 1 c3wState).1 (by decide)).1,
   ((C3_flush_backpressure id 1 c3wState).1 (by decide)).2.2.1,
   ((C3_flush_backpressure id 2 c3wState).2 (by decide)).2.2.2.1,
   ((C3_flush_backpressure id 2 c3wState).2 (by decide)).2.2.2.2.1⟩

/-- C4 (counterexample to the claim as stated): in the run
`[send 5, send 7, flush, fetch]` under the strictly increasing clock
`id`, the two records of the single fetched batch get the distinct
`fetch_completed_at` stamps `6` and `7`: the messages of one batch do
not share one `fetch_completed_at`. -/
theorem C4_counterexample :
    (runOps id 4096 1000 (init : Sys Nat)
        [Op.send 5, Op.send 7, Op.flush, Op.fetch]).map
      (fun s => s.r.log.map MRecord.t1) = .ok [6, 7]
    ∧ (6 : Nat) ≠ 7 := by
  exact ⟨rfl, by decide⟩

/-- C4 (amended): `fetch` records `fetch_started_at` once, before the
blocking dequeue, and every record of the batch shares it; but
`fetch_completed_at` is read per message inside the unpacking loop, so
each record gets its own stamp, no earlier than `fetch_started_at` and
non-decreasing across the batch under a monotone clock (not necessarily
equal). -/
theorem C4_fetch_timestamps {α : Type} (clock : Nat → Nat) (hm : Mono clock)
    (s : Sys α) (b : List (Envelope α)) (rest : List (List (Envelope α)))
    (hq : s.q = b :: rest)
    (hseq : batchSeqs b = List.range' s.r.log.length b.length)
    (hcap : s.r.log.length + b.length ≤ LOG_MAXLEN) :
    fetch clock s = .ok
      { s with tick := s.tick + 1 + b.length, q := rest, fetches := s.fetches + 1,
               observed := s.observed ++ batchSeqs b,
               r := { buffer := s.r.buffer ++ batchPayloads b,
                      log := s.r.log
                        ++ mkRecords clock (clock s.tick) (s.tick + 1) b } }
      ∧ (∀ rec ∈ mkRecords clock (clock s.tick) (s.tick + 1) b,
          rec.t0 = clock s.tick ∧ rec.t0 ≤ rec.t1)
      ∧ ((mkRecords clock (clock s.tick) (s.tick + 1) b).map MRecord.t1).Pairwise
          (· ≤ ·) := by
  refine ⟨fetch_ok clock s b rest hq hseq hcap, ?_, ?_⟩
  · intro rec hr
    obtain ⟨e, he, k, hrec⟩ := mkRecords_mem clock (clock s.tick) (s.tick + 1) b rec hr
    subst hrec
    exact ⟨rfl, hm _ _ (by omega)⟩
  · rw [mkRecords_map_t1]
    exact (List.pairwise_le_range' (s.tick + 1) b.length).map _
      (fun i j hij => hm i j hij)

theorem C4_witness :
    ((mkRecords id (id c4wState.tick) (c4wState.tick + 1)
        [⟨5, 0, 0, 1⟩, ⟨7, 1, 2, 3⟩]).map MRecord.t1).Pairwise (· ≤ ·) :=
  (C4_fetch_timestamps id (fun i j h => h) c4wState [⟨5, 0, 0, 1⟩, ⟨7, 1, 2, 3⟩] []
    rfl (by decide) (by decide)).2.2

/-- C5 (counterexample to the claim as stated): in the run
`[send 4, send 7, flush, recv, drain]` (one batch of two messages, one
`recv`), draining the log yields `2` records while only `1` `recv`
completed: the drained count equals the number of fetched messages, not
the number of `recv` calls. -/
theorem C5_counterexample :
    (runOps id 4096 1000 (init : Sys Nat)
        [Op.send 4, Op.send 7, Op.flush, Op.recv, Op.drain]).map
      (fun s => (s.drained.length, s.received.length)) = .ok (2, 1)
    ∧ (2 : Nat) ≠ 1 := by
  exact ⟨rfl, by decide⟩

/-- C5 (amended): after a drain-free run followed by one
`flush_log_using` drain (within the log capacity), the number of drained
records equals the number of successfully fetched messages — the number
of completed `recv` calls plus the payloads still sitting in the
delivery buffer — and, under a monotonically non-decreasing clock, every
record satisfies `sent_at ≤ enqueued_at` and
`fetch_started_at ≤ fetch_completed_at`. -/
theorem C5_drain_counts {α : Type} (clock : Nat → Nat) (cap freq : Nat)
    (hm : Mono clock) (ops : List (Op α)) (hnd : noDrain ops)
    (hbound : sendCount ops ≤ LOG_MAXLEN) (s1 : Sys α)
    (hrun : runOps clock cap freq init (ops ++ [Op.drain]) = .ok s1) :
    s1.drained.length = s1.received.length + s1.r.buffer.length
      ∧ ∀ rec ∈ s1.drained, rec.s0 ≤ rec.s1 ∧ rec.t0 ≤ rec.t1 := by
  rw [runOps_append] at hrun
  match h2 : runOps clock cap freq init ops with
  | .error e => rw [h2] at hrun; cases hrun
  | .ok s2 =>
      rw [h2] at hrun
      dsimp only at hrun
      rw [runOps_cons_ok _ (step_drain clock cap freq s2), runOps_nil] at hrun
      injection hrun with hrun
      obtain ⟨hi, -⟩ := runOps_invP clock cap freq ops init s2 init_invP hnd
        (by simpa [init] using hbound) h2
      have hT := runOps_invT clock cap freq hm ops init s2 (init_invT clock) h2
      have hdr0 : s2.drained = [] := by
        rw [runOps_noDrain_drained clock cap freq ops init s2 hnd h2]; rfl
      rw [← hrun]
      constructor
      · show (s2.drained ++ s2.r.log).length
            = s2.received.length + s2.r.buffer.length
        rw [hdr0]
        simp only [List.nil_append]
        rw [hi.hlog, ← hi.hcnt]
      · show ∀ rec ∈ s2.drained ++ s2.r.log,
            rec.s0 ≤ rec.s1 ∧ rec.t0 ≤ rec.t1
        intro rec hr
        rcases List.mem_append.mp hr with h1 | h1
        · exact hT.hdr rec h1
        · exact hT.hrec rec h1

theorem C5_witness :
    c5wState.drained.length = c5wState.received.length + c5wState.r.buffer.length :=
  (C5_drain_counts id 4096 1000 (fun i j h => h) [Op.send 3, Op.flush, Op.recv]
    (by decide) (by decide) c5wState rfl).1

/-- C6 (counterexample to the claim as stated): from fresh endpoints,
`flush` on an empty buffer enqueues an empty batch; `recv` with its
empty delivery buffer then fetches that empty batch and crashes with an
index error on `buffer[0]` instead of returning a payload or blocking
for one. -/
theorem C6_counterexample :
    runOps id 4096 1000 (init : Sys Nat) [Op.flush, Op.recv]
      = .error .indexError := rfl

/-- C6 (amended): `recv` with an empty delivery buffer calls `fetch`
exactly once — never more; when the fetched batch is non-empty (with the
protocol's matching sequence numbers) it returns the batch's first
payload, removing it from the buffer; but when the fetched batch is
empty, `recv` fails with an index error rather than blocking or
fetching again. -/
theorem C6_recv_fetch_once {α : Type} (clock : Nat → Nat) (s : Sys α)
    (hemp : s.r.buffer = []) :
    (∀ s1, recv clock s = .ok s1 → s1.fetches = s.fetches + 1)
      ∧ (∀ (e : Envelope α) (b' : List (Envelope α))
          (rest : List (List (Envelope α))),
          s.q = (e :: b') :: rest →
          batchSeqs (e :: b') = List.range' s.r.log.length (e :: b').length →
          s.r.log.length + (e :: b').length ≤ LOG_MAXLEN →
          ∃ s1, recv clock s = .ok s1
            ∧ s1.received = s.received ++ [e.obj]
            ∧ s1.r.buffer = batchPayloads b')
      ∧ (∀ rest : List (List (Envelope α)), s.q = [] :: rest →
          recv clock s = .error .indexError) := by
  refine ⟨?_, ?_, ?_⟩
  · intro s1 h
    rw [recv_buffer_nil clock s hemp] at h
    match hf : fetch clock s with
    | .error e => rw [hf] at h; cases h
    | .ok s2 =>
        rw [hf] at h
        dsimp only at h
        have hfe : s2.fetches = s.fetches + 1 := by
          match hq : s.q with
          | [] => rw [fetch_none clock s hq] at hf; cases hf
          | b :: rest =>
              rw [fetch_cons clock b rest s hq] at hf
              have hl := fetchLoop_fetches hf
              exact hl
        match hb2 : s2.r.buffer with
        | [] => rw [hb2] at h; cases h
        | a :: rest =>
            rw [hb2] at h
            dsimp only at h
            injection h with h
            rw [← h]
            exact hfe
  · intro e b' rest hq hseq hcap
    have hfok := fetch_ok clock s _ rest hq hseq hcap
    have hbuf2 : s.r.buffer ++ batchPayloads (e :: b')
        = e.obj :: batchPayloads b' := by
      rw [hemp]; simp [batchPayloads]
    have hrecv : recv clock s = .ok
        { s with tick := s.tick + 1 + (e :: b').length, q := rest,
                 fetches := s.fetches + 1,
                 observed := s.observed ++ batchSeqs (e :: b'),
                 received := s.received ++ [e.obj],
                 r := { buffer := batchPayloads b',
                        log := s.r.log
                          ++ mkRecords clock (clock s.tick) (s.tick + 1) (e :: b') } } := by
      rw [recv_buffer_nil clock s hemp, hfok]
      dsimp only
      rw [hbuf2]
    exact ⟨_, hrecv, rfl, rfl⟩
  · intro rest hq
    rw [recv_buffer_nil clock s hemp, fetch_cons clock [] rest s hq, fetchLoop_nil]
    dsimp only
    rw [hemp]

theorem C6_witness :
    ∃ s1, recv id c4wState = .ok s1
      ∧ s1.received = c4wState.received ++ [(⟨5, 0, 0, 1⟩ : Envelope Nat).obj]
      ∧ s1.r.buffer = batchPayloads [⟨7, 1, 2, 3⟩] :=
  (C6_recv_fetch_once id c4wState rfl).2.1 ⟨5, 0, 0, 1⟩ [⟨7, 1, 2, 3⟩] []
    rfl (by decide) (by decide)

/-- C7: requesting a duplex pipe raises the configuration error before
any channel is created (the fresh-channel count of the call is `0`) and
never yields an endpoint pair; with duplex off the factory returns a
connected `(Reader, Writer)` pair holding one and the same channel,
whatever channel argument was supplied. -/
theorem C7_duplex_rejected (α : Type) :
    (∀ (q : Option Nat) (freshId : Nat),
        (MeteredPipe α true q freshId).1 = 0
          ∧ (MeteredPipe α true q freshId).2 = .error "NotImplementedError")
      ∧ (∀ (q : Option Nat) (freshId : Nat), ∃ res : PipeResult α,
          (MeteredPipe α false q freshId).2 = .ok res
            ∧ res.r_chan = res.w_chan
            ∧ res.cr = ⟨[], []⟩ ∧ res.cw = ⟨0, [], 0⟩) := by
  constructor
  · intro q f
    exact ⟨rfl, rfl⟩
  · intro q f
    match q with
    | some qid => exact ⟨⟨⟨[], []⟩, qid, ⟨0, [], 0⟩, qid⟩, rfl, rfl, rfl, rfl⟩
    | none => exact ⟨⟨⟨[], []⟩, f, ⟨0, [], 0⟩, f⟩, rfl, rfl, rfl, rfl⟩

/-- C8: tearing down a `CW` with a non-empty local buffer raises the
runtime error; with an empty buffer it raises nothing. -/
theorem C8_del_buffer {α : Type} (w : CWState α) :
    (w.buffer ≠ [] → CW_del w
        = .error "Pipe `send` buffer is not empty. Call flush() on it.")
      ∧ (w.buffer = [] → CW_del w = .ok ()) := by
  constructor
  · intro h
    unfold CW_del
    rw [if_neg (by simpa [List.isEmpty_iff] using h)]
  · intro h
    unfold CW_del
    rw [if_pos (by simp [List.isEmpty_iff, h])]

theorem C8_witness :
    CW_del c8wState = .error "Pipe `send` buffer is not empty. Call flush() on it."
      ∧ CW_del (⟨0, [], 0⟩ : CWState Nat) = .ok () :=
  ⟨(C8_del_buffer c8wState).1 (by decide),
   (C8_del_buffer (⟨0, [], 0⟩ : CWState Nat)).2 rfl⟩

/-- C9: `flush` on an empty local buffer is not a no-op: with room in
the queue it still enqueues an empty batch, refreshes
`last_successful_put` with a fresh clock reading, and leaves the
sequence counter unchanged; and a reader fetching an empty batch
appends nothing to its delivery buffer or metering log. -/
theorem C9_empty_flush {α : Type} (clock : Nat → Nat) (cap : Nat) (s : Sys α)
    (hemp : s.w.buffer = []) (hnf : ¬ qFull cap s.q) :
    (flush clock cap s).q = s.q ++ [[]]
      ∧ (flush clock cap s).w.n = s.w.n
      ∧ (flush clock cap s).w.last_successful_put = clock s.tick
      ∧ (∀ (t : Sys α) (rest : List (List (Envelope α))), t.q = [] :: rest →
          fetch clock t = .ok { t with tick := t.tick + 1, q := rest,
                                       fetches := t.fetches + 1 }) := by
  refine ⟨?_, ?_, ?_, ?_⟩
  · rw [flush_nonfull clock cap s hnf]
    dsimp only
    rw [hemp]
    rfl
  · rw [flush_nonfull clock cap s hnf]
    dsimp only
    rw [hemp]
    simp
  · rw [flush_nonfull clock cap s hnf]
    dsimp only
    rw [hemp]
    simp
  · intro t rest ht
    rw [fetch_cons clock [] rest t ht, fetchLoop_nil]

theorem C9_witness :
    (flush id 4 c9wState).q = c9wState.q ++ [[]]
      ∧ (flush id 4 c9wState).w.n = c9wState.w.n :=
  ⟨(C9_empty_flush id 4 c9wState rfl (by decide)).1,
   (C9_empty_flush id 4 c9wState rfl (by decide)).2.1⟩

/-- C10: the factory's `duplex` parameter defaults to `True`, so a call
with the default arguments always raises the duplex configuration error
without creating a channel; a usable pipe requires explicitly passing
`duplex = False`, which always succeeds. -/
theorem C10_default_duplex (α : Type) :
    MeteredPipe_default_duplex = true
      ∧ (∀ freshId : Nat,
          (MeteredPipe α MeteredPipe_default_duplex MeteredPipe_default_q freshId).1 = 0
            ∧ (MeteredPipe α MeteredPipe_default_duplex MeteredPipe_default_q freshId).2
                = .error "NotImplementedError")
      ∧ (∀ (q : Option Nat) (freshId : Nat),
          ∃ res, (MeteredPipe α false q freshId).2 = .ok res) := by
  refine ⟨rfl, fun f => ⟨rfl, rfl⟩, ?_⟩
  intro q f
  match q with
  | some qid => exact ⟨⟨⟨[], []⟩, qid, ⟨0, [], 0⟩, qid⟩, rfl⟩
  | none => exact ⟨⟨⟨[], []⟩, f, ⟨0, [], 0⟩, f⟩, rfl⟩

theorem C1_witness :
    ∃ s1, runOps id 4096 1000 init
        (([3, 1, 2] : List Nat).map Op.send
          ++ Op.flush :: List.replicate ([3, 1, 2] : List Nat).length Op.recv)
        = .ok s1
      ∧ s1.received = [3, 1, 2] :=
  C1_send_flush_recv_ordering id 4096 1000 [3, 1, 2] (by decide) (by decide)

end MeteredPipe
